import Mathlib

/- Shallow embedding of src/rust_03/src/main.rs: a Diffie-Hellman key
   exchange followed by an LCG-keystream XOR stream cipher over a
   length-framed chat protocol. Machine integers are modelled as Nat with
   explicit reductions mod 2^32 / 2^64 / 2^128 at the points where the
   source wraps ("wrapping_mul", "wrapping_add", "as u32", "as u64"). -/

-- Hardcoded Diffie-Hellman parameters (main.rs lines 40-41).
def P : Nat := 0xD87FA3E291B4C7F3

def G : Nat := 2

-- LCG parameters for the stream cipher (main.rs lines 44-46); M = 1u64 << 32.
def A : Nat := 1103515245

def C : Nat := 12345

def M : Nat := 2 ^ 32

/-- StreamCipher::next_byte (main.rs lines 60-63): the u64 state is
updated to `A.wrapping_mul(state).wrapping_add(C) % M` and the returned
byte is `(state & 0xFF) as u8`.  Returns (new state, returned byte). -/
def next_byte (state : Nat) : Nat × Nat :=
  let state' := ((A * state % 2 ^ 64) + C) % 2 ^ 64 % M
  (state', state' &&& 0xFF)

/-- StreamCipher::encrypt (main.rs lines 65-67): XOR each plaintext byte
with the next keystream byte, threading the cipher state through.
Returns (final state, output bytes). -/
def encrypt : Nat → List Nat → Nat × List Nat
  | s, [] => (s, [])
  | s, b :: rest =>
    let sb := next_byte s
    let r := encrypt sb.1 rest
    (r.1, (b ^^^ sb.2) :: r.2)

/-- StreamCipher::decrypt (main.rs lines 69-71): identical to encrypt,
since XOR is symmetric. -/
def decrypt (s : Nat) (ciphertext : List Nat) : Nat × List Nat :=
  encrypt s ciphertext

/-- The first n keystream bytes emitted by a StreamCipher started at the
given state. -/
def keystream (s : Nat) : Nat → List Nat
  | 0 => []
  | n + 1 => (next_byte s).2 :: keystream (next_byte s).1 n

/-- The cipher state after n next_byte calls from the given state
(the `for _ in 0..k { c.next_byte(); }` fast-forward loops in the source). -/
def lcgIter (s : Nat) : Nat → Nat
  | 0 => s
  | n + 1 => lcgIter (next_byte s).1 n

/-- The square-and-multiply loop of modular_pow (main.rs lines 82-91).
The source halves exp each iteration; a fuel argument bounded below by exp
makes the recursion structural (exp / 2 < exp whenever exp > 0, so fuel =
exp never runs out before exp reaches 0).  u128 intermediate products wrap
at 2^128 and the final `result as u64` cast truncates at 2^64, exactly as
in the source. -/
def modpowLoop (modulus : Nat) : Nat → Nat → Nat → Nat → Nat
  | 0, result, _, _ => result % 2 ^ 64
  | fuel + 1, result, base, exp =>
    if exp = 0 then result % 2 ^ 64
    else
      modpowLoop modulus fuel
        (if exp % 2 = 1 then result * base % 2 ^ 128 % modulus else result)
        (if 0 < exp / 2 then base * base % 2 ^ 128 % modulus else base)
        (exp / 2)

/-- modular_pow (main.rs lines 74-93): square-and-multiply modular
exponentiation with u128 intermediates; modulus == 1 returns 0 up front. -/
def modular_pow (base exp modulus : Nat) : Nat :=
  if modulus = 1 then 0
  else modpowLoop modulus exp 1 (base % modulus) exp

/-- modular_pow with its panic behaviour made explicit: after the
`modulus == 1` early return, the source evaluates `base %= modulus`, which
panics (divide by zero) when modulus == 0; every other path returns. -/
def modular_pow_checked (base exp modulus : Nat) : Option Nat :=
  if modulus = 1 then some 0
  else if modulus = 0 then none
  else some (modpowLoop modulus exp 1 (base % modulus) exp)

/-- u64::to_be_bytes: the eight bytes of a u64, most significant first. -/
def u64_to_be_bytes (v : Nat) : List Nat :=
  [v / 2 ^ 56 % 256, v / 2 ^ 48 % 256, v / 2 ^ 40 % 256, v / 2 ^ 32 % 256,
   v / 2 ^ 24 % 256, v / 2 ^ 16 % 256, v / 2 ^ 8 % 256, v % 256]

/-- u64::from_be_bytes: reassemble a u64 from eight big-endian bytes. -/
def u64_from_be_bytes (bytes : List Nat) : Nat :=
  bytes.foldl (fun acc b => acc * 256 + b) 0

/-- u32::to_be_bytes: the four bytes of a u32, most significant first. -/
def u32_to_be_bytes (v : Nat) : List Nat :=
  [v / 2 ^ 24 % 256, v / 2 ^ 16 % 256, v / 2 ^ 8 % 256, v % 256]

/-- u32::from_be_bytes: reassemble a u32 from four big-endian bytes. -/
def u32_from_be_bytes (bytes : List Nat) : Nat :=
  bytes.foldl (fun acc b => acc * 256 + b) 0

/-- One network operation performed on the TCP stream, in order. -/
inductive NetEvent where
  | readBytes (bytes : List Nat)
  | writeBytes (bytes : List Nat)
deriving DecidableEq

/-- The duplex stream as seen by one peer: rx is the sequence of bytes
that will arrive before the peer closes the connection, log records the
reads and writes this side performs, in program order. -/
structure NetStream where
  rx : List Nat
  log : List NetEvent
deriving DecidableEq

/-- Read::read_exact of n bytes: succeeds consuming exactly n bytes when
at least n bytes remain before the stream closes, otherwise fails. -/
def read_exact (s : NetStream) (n : Nat) : Option (List Nat × NetStream) :=
  if n ≤ s.rx.length then
    some (s.rx.take n,
          { rx := s.rx.drop n, log := s.log ++ [NetEvent.readBytes (s.rx.take n)] })
  else none

/-- Write::write_all: appends a write of the given bytes to the log. -/
def write_all (s : NetStream) (bytes : List Nat) : NetStream :=
  { s with log := s.log ++ [NetEvent.writeBytes bytes] }

/-- perform_dh_exchange (main.rs lines 95-173), with the locally generated
private key taken as a parameter (the source draws it from a time-seeded
xorshift).  The server receives the peer's 8-byte big-endian public value
first and then sends its own; the client sends first and then receives.
Returns the shared secret and the final stream, or none on I/O failure. -/
def perform_dh_exchange (s : NetStream) (is_server : Bool) (private_key : Nat) :
    Option (Nat × NetStream) :=
  let public_key := modular_pow G private_key P
  if is_server then
    match read_exact s 8 with
    | none => none
    | some (buf, s1) =>
      let their_key := u64_from_be_bytes buf
      let s2 := write_all s1 (u64_to_be_bytes public_key)
      some (modular_pow their_key private_key P, s2)
  else
    let s1 := write_all s (u64_to_be_bytes public_key)
    match read_exact s1 8 with
    | none => none
    | some (buf, s2) =>
      let their_key := u64_from_be_bytes buf
      some (modular_pow their_key private_key P, s2)

/-- Outcome of one receive turn of the chat loop. -/
inductive RecvResult where
  | cleanEnd
  | ioError
  | msg (ciphertext rest : List Nat)
deriving DecidableEq

/-- One receive turn of the chat loops (main.rs lines 210-217 and 379-386):
`read_exact` of the 4-byte length header breaks out of the loop on failure
(clean end); the subsequent `read_exact` of the payload propagates its
error with `?`.  rx is the full sequence of bytes remaining before the
connection closes. -/
def recv_turn (rx : List Nat) : RecvResult :=
  if rx.length < 4 then RecvResult.cleanEnd
  else if (rx.drop 4).length < u32_from_be_bytes (rx.take 4) then RecvResult.ioError
  else RecvResult.msg ((rx.drop 4).take (u32_from_be_bytes (rx.take 4)))
                      ((rx.drop 4).drop (u32_from_be_bytes (rx.take 4)))

/-- The bytes one chat message puts on the wire (main.rs lines 301-303):
`(encrypted.len() as u32).to_be_bytes()` followed by the ciphertext; the
`as u32` cast truncates the length mod 2^32. -/
def send_envelope (ciphertext : List Nat) : List Nat :=
  u32_to_be_bytes (ciphertext.length % 2 ^ 32) ++ ciphertext

/-- Per-message cipher handling in the chat loops (main.rs lines 230-234
and 278-281, mirrored in run_client): a fresh StreamCipher is seeded from
the shared secret for every message and advanced `cipher.state` times,
where `cipher` is the session's tracking cipher; ffCount is that state
value.  Returns the transformed bytes. -/
def message_transform (shared_secret ffCount : Nat) (bytes : List Nat) : List Nat :=
  (encrypt (lcgIter shared_secret ffCount) bytes).2

/-- The first message the server decrypts (main.rs lines 197-234): the
tracking cipher is seeded from the shared secret and advanced 12 times by
print_keystream before the chat loop starts, so the fast-forward count for
the first received message is the tracking cipher's state after those 12
steps. -/
def server_first_message_plaintext (shared_secret : Nat) (encrypted : List Nat) : List Nat :=
  message_transform shared_secret (lcgIter shared_secret 12) encrypted

/-- The keystream discipline the specification claims: one generator per
direction, seeded once from the shared secret at connection start, never
reseeded, and advanced exactly once per byte ever sent or received in that
direction — so a message arriving after `prior` bytes of its direction is
transformed with keystream positions prior+1, prior+2, ....  Stated from
the specification's words for comparison with message_transform, which is
what the source does. -/
def claimed_direction_transform (shared_secret prior : Nat) (bytes : List Nat) : List Nat :=
  (encrypt (lcgIter shared_secret prior) bytes).2

/- ------------------------------------------------------------------ -/
/- Keystream generator lemmas                                          -/
/- ------------------------------------------------------------------ -/

lemma next_byte_fst (s : Nat) : (next_byte s).1 = (A * s + C) % 2 ^ 32 := by
  simp only [next_byte, A, C, M]
  omega

lemma next_byte_snd (s : Nat) : (next_byte s).2 = (next_byte s).1 % 256 := by
  show (next_byte s).1 &&& 0xFF = (next_byte s).1 % 256
  rw [show (0xFF : Nat) = 2 ^ 8 - 1 from rfl, Nat.and_pow_two_sub_one_eq_mod]

lemma encrypt_encrypt (s : Nat) (b : List Nat) :
    (encrypt s (encrypt s b).2).2 = b := by
  induction b generalizing s with
  | nil => rfl
  | cons x rest ih =>
    simp only [encrypt]
    rw [Nat.xor_cancel_right, ih]

lemma next_byte_congr {s1 s2 : Nat} (h : s1 % 2 ^ 32 = s2 % 2 ^ 32) :
    next_byte s1 = next_byte s2 := by
  have hm : Nat.ModEq (2 ^ 32) s1 s2 := h
  have h1 : (next_byte s1).1 = (next_byte s2).1 := by
    rw [next_byte_fst, next_byte_fst]
    exact (hm.mul_left A).add_right C
  have h2 : (next_byte s1).2 = (next_byte s2).2 := by
    rw [next_byte_snd, next_byte_snd, h1]
  exact Prod.ext h1 h2

/-- C2: for every seed s and byte sequence b, decrypting with a second
StreamCipher seeded with the same s the ciphertext produced by a
StreamCipher seeded with s round-trips back to b (both generators start
at the seed and consume one byte per input byte, in order). -/
theorem stream_cipher_roundtrip (s : Nat) (b : List Nat) :
    (decrypt s (encrypt s b).2).2 = b :=
  encrypt_encrypt s b

/-- C7: every next_byte call advances the state exactly as
state' = (A * state + C) mod 2^32 and returns the low 8 bits of the new
state. -/
theorem next_byte_spec (state : Nat) :
    (next_byte state).1 = (A * state + C) % 2 ^ 32 ∧
    (next_byte state).2 = (A * state + C) % 2 ^ 32 % 256 := by
  refine ⟨next_byte_fst state, ?_⟩
  rw [next_byte_snd, next_byte_fst]

/-- C10: the keystream depends only on the low 32 bits of the seed: two
StreamCiphers whose seeds agree mod 2^32 produce identical byte sequences
for every call count, and encrypt any plaintext identically. -/
theorem keystream_low32_only (s1 s2 : Nat) (h : s1 % 2 ^ 32 = s2 % 2 ^ 32) :
    (∀ n, keystream s1 n = keystream s2 n) ∧
    (∀ b, (encrypt s1 b).2 = (encrypt s2 b).2) := by
  have hnb := next_byte_congr h
  constructor
  · intro n
    cases n with
    | zero => rfl
    | succ m => simp only [keystream, hnb]
  · intro b
    cases b with
    | nil => rfl
    | cons x rest => simp only [encrypt, hnb]

/-- Witness for C10 at seeds 5 and 2^32 + 5. -/
theorem keystream_low32_only_witness :
    5 % 2 ^ 32 = (2 ^ 32 + 5) % 2 ^ 32 ∧
    keystream 5 3 = keystream (2 ^ 32 + 5) 3 ∧
    (encrypt 5 [1, 2]).2 = (encrypt (2 ^ 32 + 5) [1, 2]).2 :=
  ⟨by norm_num,
   (keystream_low32_only 5 (2 ^ 32 + 5) (by norm_num)).1 3,
   (keystream_low32_only 5 (2 ^ 32 + 5) (by norm_num)).2 [1, 2]⟩

/-- C4 fails on the source: with shared secret 2764277777 the tracking
cipher's state after the 12 keystream-preview steps is 5, so the fresh
per-message cipher for the server's first received message is fast
forwarded 5 steps and decrypts with keystream byte 6, whereas a generator
seeded once at connection start and advanced once per byte of its
direction would use keystream byte 1. -/
theorem generator_reseeded_counterexample :
    server_first_message_plaintext 2764277777 [0] ≠
      claimed_direction_transform 2764277777 0 [0] := by
  decide

/-- C4 amended: the chat loops re-seed a fresh StreamCipher from the
shared secret for every message and fast-forward it by the current state
value of the session's tracking cipher; since both peers' tracking
ciphers advance in lockstep, applying the per-message transform twice
with the same fast-forward count still recovers the plaintext. -/
theorem per_message_transform_roundtrip (shared_secret ffCount : Nat) (m : List Nat) :
    message_transform shared_secret ffCount (message_transform shared_secret ffCount m) = m :=
  encrypt_encrypt (lcgIter shared_secret ffCount) m

/- ------------------------------------------------------------------ -/
/- Modular exponentiation lemmas                                       -/
/- ------------------------------------------------------------------ -/

lemma mul_mod128_id {modulus x y : Nat} (h2 : modulus < 2 ^ 64)
    (hx : x < modulus) (hy : y < modulus) : x * y % 2 ^ 128 = x * y := by
  apply Nat.mod_eq_of_lt
  calc x * y < 2 ^ 64 * 2 ^ 64 :=
        Nat.mul_lt_mul_of_lt_of_lt (lt_trans hx h2) (lt_trans hy h2)
    _ = 2 ^ 128 := by norm_num

lemma modpowLoop_eq (modulus : Nat) (h1 : 1 < modulus) (h2 : modulus < 2 ^ 64) :
    ∀ fuel exp result base, exp ≤ fuel → result < modulus → base < modulus →
      modpowLoop modulus fuel result base exp = result * base ^ exp % modulus := by
  have hpos : 0 < modulus := by omega
  intro fuel
  induction fuel with
  | zero =>
    intro exp result base hle hr hb
    have hexp : exp = 0 := Nat.le_zero.mp hle
    subst hexp
    simp only [modpowLoop, pow_zero, mul_one]
    rw [Nat.mod_eq_of_lt (lt_trans hr h2), Nat.mod_eq_of_lt hr]
  | succ fuel ih =>
    intro exp result base hle hr hb
    by_cases hexp : exp = 0
    · subst hexp
      simp only [modpowLoop, if_pos, pow_zero, mul_one]
      rw [Nat.mod_eq_of_lt (lt_trans hr h2), Nat.mod_eq_of_lt hr]
    · have hepos : 0 < exp := Nat.pos_of_ne_zero hexp
      have hq : exp / 2 ≤ fuel := by
        have := Nat.div_lt_self hepos (by norm_num : 1 < 2)
        omega
      have hqr : 2 * (exp / 2) + exp % 2 = exp := Nat.div_add_mod exp 2
      simp only [modpowLoop, if_neg hexp]
      set r' := if exp % 2 = 1 then result * base % 2 ^ 128 % modulus else result with hrdef
      set b' := if 0 < exp / 2 then base * base % 2 ^ 128 % modulus else base with hbdef
      have hr'lt : r' < modulus := by
        rw [hrdef]; split
        · exact Nat.mod_lt _ hpos
        · exact hr
      have hb'lt : b' < modulus := by
        rw [hbdef]; split
        · exact Nat.mod_lt _ hpos
        · exact hb
      rw [ih (exp / 2) r' b' hq hr'lt hb'lt]
      have hr'cong : Nat.ModEq modulus r' (result * base ^ (exp % 2)) := by
        rw [hrdef]
        rcases Nat.mod_two_eq_zero_or_one exp with h | h
        · rw [if_neg (by omega), h, pow_zero, mul_one]
        · rw [if_pos h, h, pow_one, mul_mod128_id h2 hr hb]
          exact Nat.mod_modEq _ _
      have hb'cong : Nat.ModEq modulus (b' ^ (exp / 2)) (base ^ (2 * (exp / 2))) := by
        rw [hbdef]
        by_cases hq0 : 0 < exp / 2
        · rw [if_pos hq0, mul_mod128_id h2 hb hb]
          calc ((base * base % modulus) ^ (exp / 2)) ≡ (base * base) ^ (exp / 2) [MOD modulus] :=
                (Nat.mod_modEq _ _).pow _
            _ = base ^ (2 * (exp / 2)) := by rw [two_mul, pow_add, mul_pow]
        · rw [if_neg hq0]
          have hz : exp / 2 = 0 := by omega
          rw [hz]
      have key : Nat.ModEq modulus (r' * b' ^ (exp / 2)) (result * base ^ exp) := by
        calc r' * b' ^ (exp / 2)
            ≡ result * base ^ (exp % 2) * base ^ (2 * (exp / 2)) [MOD modulus] :=
              hr'cong.mul hb'cong
          _ = result * base ^ exp := by
              have hsum : exp % 2 + 2 * (exp / 2) = exp := by omega
              rw [mul_assoc, ← pow_add, hsum]
      exact key

lemma modular_pow_correct (base exp modulus : Nat) (h1 : 1 < modulus)
    (h2 : modulus < 2 ^ 64) :
    modular_pow base exp modulus = base ^ exp % modulus := by
  unfold modular_pow
  rw [if_neg (by omega : modulus ≠ 1),
      modpowLoop_eq modulus h1 h2 exp exp 1 (base % modulus) le_rfl h1
        (Nat.mod_lt base (by omega)),
      one_mul, ← Nat.pow_mod]

/-- C1: for all u64 operands, modular_pow equals the arbitrary-precision
value of base ^ exponent mod modulus when modulus > 1 (including
exponent = 0, which gives 1 mod modulus), and returns 0 when modulus = 1. -/
theorem modular_pow_matches_reference (base exp modulus : Nat)
    (hb : base < 2 ^ 64) (he : exp < 2 ^ 64) (hm : modulus < 2 ^ 64) :
    (1 < modulus → modular_pow base exp modulus = base ^ exp % modulus) ∧
    (modulus = 1 → modular_pow base exp modulus = 0) := by
  constructor
  · intro h1
    exact modular_pow_correct base exp modulus h1 hm
  · intro h
    subst h
    rfl

/-- Witness for C1 at (3, 5, 7) and at modulus 1. -/
theorem modular_pow_matches_reference_witness :
    modular_pow 3 5 7 = 3 ^ 5 % 7 ∧ modular_pow 3 5 1 = 0 :=
  ⟨(modular_pow_matches_reference 3 5 7 (by norm_num) (by norm_num) (by norm_num)).1
     (by norm_num),
   (modular_pow_matches_reference 3 5 1 (by norm_num) (by norm_num) (by norm_num)).2 rfl⟩

/-- C3: for private keys a and b in the valid range [2, P-2], both peers
derive the same shared secret: modular_pow (modular_pow G a P) b P equals
modular_pow (modular_pow G b P) a P. -/
theorem dh_shared_secret_agreement (a b : Nat)
    (ha : 2 ≤ a ∧ a ≤ P - 2) (hb : 2 ≤ b ∧ b ≤ P - 2) :
    modular_pow (modular_pow G a P) b P = modular_pow (modular_pow G b P) a P := by
  have h1 : 1 < P := by norm_num [P]
  have h2 : P < 2 ^ 64 := by norm_num [P]
  rw [modular_pow_correct (modular_pow G a P) b P h1 h2,
      modular_pow_correct (modular_pow G b P) a P h1 h2,
      modular_pow_correct G a P h1 h2, modular_pow_correct G b P h1 h2,
      ← Nat.pow_mod, ← Nat.pow_mod, ← pow_mul, ← pow_mul, Nat.mul_comm]

/-- Witness for C3 at private keys 2 and 3. -/
theorem dh_shared_secret_agreement_witness :
    (2 ≤ 2 ∧ 2 ≤ P - 2) ∧ (2 ≤ 3 ∧ 3 ≤ P - 2) ∧
    modular_pow (modular_pow G 2 P) 3 P = modular_pow (modular_pow G 3 P) 2 P :=
  ⟨⟨by norm_num, by norm_num [P]⟩, ⟨by norm_num, by norm_num [P]⟩,
   dh_shared_secret_agreement 2 3 ⟨by norm_num, by norm_num [P]⟩
     ⟨by norm_num, by norm_num [P]⟩⟩

/-- C9: with modulus >= 1 every path of modular_pow returns (no panic),
producing the value of modular_pow; with modulus = 0 the reduction
base %= modulus divides by zero and the call panics. -/
theorem modular_pow_panic_freedom (base exp modulus : Nat) :
    (1 ≤ modulus →
      modular_pow_checked base exp modulus = some (modular_pow base exp modulus)) ∧
    modular_pow_checked base exp 0 = none := by
  constructor
  · intro h
    unfold modular_pow_checked modular_pow
    by_cases hm : modulus = 1
    · subst hm
      rfl
    · rw [if_neg hm, if_neg (by omega : modulus ≠ 0), if_neg hm]
  · rfl

/-- Witness for C9 at (6, 2, 4). -/
theorem modular_pow_panic_freedom_witness :
    (1 : Nat) ≤ 4 ∧ modular_pow_checked 6 2 4 = some (modular_pow 6 2 4) ∧
    modular_pow_checked 6 2 0 = none :=
  ⟨by norm_num, (modular_pow_panic_freedom 6 2 4).1 (by norm_num),
   (modular_pow_panic_freedom 6 2 0).2⟩

/- ------------------------------------------------------------------ -/
/- Wire format lemmas                                                  -/
/- ------------------------------------------------------------------ -/

lemma u32_from_to (v : Nat) (h : v < 2 ^ 32) :
    u32_from_be_bytes (u32_to_be_bytes v) = v := by
  simp only [u32_to_be_bytes, u32_from_be_bytes, List.foldl_cons, List.foldl_nil]
  omega

lemma u32_to_be_bytes_length (v : Nat) : (u32_to_be_bytes v).length = 4 := rfl

/-- C5: during the handshake the responder reads the peer's 8-byte
big-endian public value first and then writes its own, while the
initiator writes its own first and then reads the peer's. -/
theorem dh_exchange_ordering (rx : List Nat) (k : Nat) (h : 8 ≤ rx.length) :
    perform_dh_exchange ⟨rx, []⟩ true k =
      some (modular_pow (u64_from_be_bytes (rx.take 8)) k P,
        ⟨rx.drop 8, [NetEvent.readBytes (rx.take 8),
                     NetEvent.writeBytes (u64_to_be_bytes (modular_pow G k P))]⟩) ∧
    perform_dh_exchange ⟨rx, []⟩ false k =
      some (modular_pow (u64_from_be_bytes (rx.take 8)) k P,
        ⟨rx.drop 8, [NetEvent.writeBytes (u64_to_be_bytes (modular_pow G k P)),
                     NetEvent.readBytes (rx.take 8)]⟩) := by
  constructor <;>
    simp [perform_dh_exchange, read_exact, write_all, h]

/-- Witness for C5 with an 8-byte incoming public value and private key 2. -/
theorem dh_exchange_ordering_witness :
    (8 : Nat) ≤ ([1, 2, 3, 4, 5, 6, 7, 8] : List Nat).length ∧
    (perform_dh_exchange ⟨[1, 2, 3, 4, 5, 6, 7, 8], []⟩ true 2 =
      some (modular_pow (u64_from_be_bytes (([1, 2, 3, 4, 5, 6, 7, 8] : List Nat).take 8)) 2 P,
        ⟨([1, 2, 3, 4, 5, 6, 7, 8] : List Nat).drop 8,
         [NetEvent.readBytes (([1, 2, 3, 4, 5, 6, 7, 8] : List Nat).take 8),
          NetEvent.writeBytes (u64_to_be_bytes (modular_pow G 2 P))]⟩)) ∧
    (perform_dh_exchange ⟨[1, 2, 3, 4, 5, 6, 7, 8], []⟩ false 2 =
      some (modular_pow (u64_from_be_bytes (([1, 2, 3, 4, 5, 6, 7, 8] : List Nat).take 8)) 2 P,
        ⟨([1, 2, 3, 4, 5, 6, 7, 8] : List Nat).drop 8,
         [NetEvent.writeBytes (u64_to_be_bytes (modular_pow G 2 P)),
          NetEvent.readBytes (([1, 2, 3, 4, 5, 6, 7, 8] : List Nat).take 8)]⟩)) :=
  ⟨by norm_num,
   (dh_exchange_ordering [1, 2, 3, 4, 5, 6, 7, 8] 2 (by norm_num)).1,
   (dh_exchange_ordering [1, 2, 3, 4, 5, 6, 7, 8] 2 (by norm_num)).2⟩

/-- C6 fails on the source: a stream that closes after delivering only the
4-byte header [0,0,0,5] (announcing five payload bytes that never arrive)
takes the payload read_exact's question-mark path and surfaces an I/O
error, unlike a stream that closes mid-length-header, which breaks out of
the loop as a clean session end. -/
theorem mid_payload_error_counterexample :
    recv_turn [0, 0, 0, 5] = RecvResult.ioError ∧
    recv_turn ([] : List Nat) = RecvResult.cleanEnd ∧
    RecvResult.ioError ≠ RecvResult.cleanEnd := by
  refine ⟨by decide, by decide, by decide⟩

/-- C6 amended: a stream closing mid-length-header (fewer than 4 bytes) is
a clean session end, but a stream closing mid-payload (a header promising
more bytes than remain) propagates an I/O error out of the session; a
fully delivered envelope is parsed into its ciphertext and the rest of the
stream. -/
theorem recv_turn_behavior (rx : List Nat) :
    (rx.length < 4 → recv_turn rx = RecvResult.cleanEnd) ∧
    (4 ≤ rx.length → rx.length < 4 + u32_from_be_bytes (rx.take 4) →
      recv_turn rx = RecvResult.ioError) ∧
    (4 + u32_from_be_bytes (rx.take 4) ≤ rx.length →
      recv_turn rx = RecvResult.msg
        ((rx.drop 4).take (u32_from_be_bytes (rx.take 4)))
        ((rx.drop 4).drop (u32_from_be_bytes (rx.take 4)))) := by
  refine ⟨fun h => ?_, fun h4 hlen => ?_, fun hle => ?_⟩
  · simp [recv_turn, h]
  · simp only [recv_turn, List.length_drop]
    rw [if_neg (by omega), if_pos (by omega)]
  · simp only [recv_turn, List.length_drop]
    rw [if_neg (by omega), if_neg (by omega)]

/-- Witness for C6's amended statement on three concrete streams. -/
theorem recv_turn_behavior_witness :
    recv_turn [9] = RecvResult.cleanEnd ∧
    recv_turn [0, 0, 0, 2, 7] = RecvResult.ioError ∧
    recv_turn [0, 0, 0, 1, 7, 8] = RecvResult.msg [7] [8] :=
  ⟨(recv_turn_behavior [9]).1 (by norm_num),
   (recv_turn_behavior [0, 0, 0, 2, 7]).2.1 (by norm_num) (by decide),
   (recv_turn_behavior [0, 0, 0, 1, 7, 8]).2.2 (by decide)⟩

/-- C8 fails on the source for a ciphertext of 2^32 bytes: the `as u32`
cast truncates the length, so the 4-byte header decodes to 0 rather than
the ciphertext length. -/
theorem envelope_header_counterexample :
    u32_from_be_bytes ((send_envelope (List.replicate (2 ^ 32) 0)).take 4) ≠
      (List.replicate (2 ^ 32) (0 : Nat)).length := by
  have hlen : (List.replicate (2 ^ 32) (0 : Nat)).length = 2 ^ 32 :=
    List.length_replicate _ _
  have h4 : (send_envelope (List.replicate (2 ^ 32) 0)).take 4 =
      u32_to_be_bytes ((List.replicate (2 ^ 32) (0 : Nat)).length % 2 ^ 32) := by
    unfold send_envelope
    exact List.take_left' (u32_to_be_bytes_length _)
  rw [h4, hlen, Nat.mod_self, u32_from_to 0 (by norm_num)]
  norm_num

/-- C8 amended: the envelope header is the 4-byte big-endian ciphertext
length reduced mod 2^32 (hence equal to the length whenever the
ciphertext is shorter than 2^32 bytes), all ciphertext bytes follow the
header, such an envelope is parsed back by a receive turn (including the
length-0 envelope), and decrypting an empty payload yields an empty
payload. -/
theorem envelope_spec_amended (c rest : List Nat) (s : Nat) :
    u32_from_be_bytes ((send_envelope c).take 4) = c.length % 2 ^ 32 ∧
    (send_envelope c).drop 4 = c ∧
    (c.length < 2 ^ 32 → recv_turn (send_envelope c ++ rest) = RecvResult.msg c rest) ∧
    (decrypt s []).2 = [] := by
  refine ⟨?_, ?_, fun h => ?_, rfl⟩
  · rw [show (send_envelope c).take 4 = u32_to_be_bytes (c.length % 2 ^ 32) from
        List.take_left' (u32_to_be_bytes_length _),
      u32_from_to _ (Nat.mod_lt _ (by norm_num))]
  · exact List.drop_left' (u32_to_be_bytes_length _)
  · have hmod : c.length % 2 ^ 32 = c.length := Nat.mod_eq_of_lt h
    have hrx : send_envelope c ++ rest = u32_to_be_bytes c.length ++ (c ++ rest) := by
      rw [send_envelope, hmod, List.append_assoc]
    rw [hrx]
    simp only [recv_turn, List.take_left' (u32_to_be_bytes_length c.length),
      List.drop_left' (u32_to_be_bytes_length c.length),
      u32_from_to c.length h, List.length_append, u32_to_be_bytes_length]
    rw [if_neg (by omega), if_neg (by omega), List.take_left, List.drop_left]

/-- Witness for C8's amended statement at ciphertext [3,4]. -/
theorem envelope_spec_amended_witness :
    u32_from_be_bytes ((send_envelope [3, 4]).take 4) = ([3, 4] : List Nat).length % 2 ^ 32 ∧
    (send_envelope [3, 4]).drop 4 = [3, 4] ∧
    (([3, 4] : List Nat).length < 2 ^ 32 ∧
      recv_turn (send_envelope [3, 4] ++ [9]) = RecvResult.msg [3, 4] [9]) ∧
    (decrypt 0 []).2 = [] :=
  ⟨(envelope_spec_amended [3, 4] [9] 0).1,
   (envelope_spec_amended [3, 4] [9] 0).2.1,
   ⟨by norm_num, (envelope_spec_amended [3, 4] [9] 0).2.2.1 (by norm_num)⟩,
   (envelope_spec_amended [3, 4] [9] 0).2.2.2⟩
